import Mathlib

/-!
Verification of the drift-labs/order-filler bot (src/src/index.ts).

The file shallowly embeds the bot's core routines: the per-order
enable/disable decision of `updateUserOrders`, the adaptive sleep of
`processUser`, the order-event handler `handleOrderRecord` and the
event-drain loop `updateOrderList`, the candidate scan `findNodesToFill`,
the guarded pass `tryFillForMarket` with its dispatch loop and failure
handler, and the startup routine `fetchAllUsers`.

Big integers (`BN`) are embedded as `Int`/`Nat`; public keys as `Nat`;
the JavaScript `Map` as an association list; asynchronous external calls
(account fetches, transaction submission) as explicit inputs or outputs
of the pure transition functions.

The book implementation (`src/dlob/DLOB.ts`, `src/dlob/OrderList.ts`)
is not part of the sources; the definitions that stand in for it are
marked `Modelled from the spec:` and follow the design document's
description of the Book and of price crossing.
-/

/-- Order side, `order.direction` in the source. -/
inductive OrderDirection
  | long
  | short
deriving DecidableEq, Repr, Inhabited

/-- Order kind, `order.orderType` in the source. -/
inductive OrderType
  | market
  | limit
  | triggerMarket
  | triggerLimit
deriving DecidableEq, Repr, Inhabited

/-- The fields of an on-ledger order that the bot reads. -/
structure Order where
  orderId : Nat
  marketIndex : Nat
  direction : OrderDirection
  orderType : OrderType
  price : Int
  oraclePriceOffset : Int
  postOnly : Bool
  reduceOnly : Bool
  baseAssetAmount : Int
  baseAssetAmountFilled : Int
deriving DecidableEq, Repr, Inhabited

/-- Modelled from the spec: the Book ("DLOB") of §4.2, reduced to its set of
tracked order identifiers (`openOrders` in the source's logging). The
per-market order lists are elided: every claim below concerns membership
in the book, and §4.2's `insert` records the identifier in the tracked
set whenever it inserts into a list. -/
structure DLOB where
  openOrders : List Nat
deriving DecidableEq, Repr, Inhabited

/-- Modelled from the spec: Book.insert of §4.2 — "records the identifier in
the tracked set; fails silently (idempotent) if the identifier is already
tracked". §4.2 lists no filtering by order kind. -/
def DLOB.insert (dlob : DLOB) (order : Order) : DLOB :=
  if order.orderId ∈ dlob.openOrders then dlob
  else { openOrders := order.orderId :: dlob.openOrders }

/-- Modelled from the spec: Book.remove of §4.2 — "deletes from whichever
list currently holds the identifier and drops it from the tracked set". -/
def DLOB.remove (dlob : DLOB) (order : Order) : DLOB :=
  { openOrders := dlob.openOrders.erase order.orderId }

/-- Modelled from the spec: Book.update of §4.2 — mutates the filled-size
field of the existing node in place; the tracked set is unchanged. -/
def DLOB.update (dlob : DLOB) (_order : Order) : DLOB :=
  dlob

/-! ## updateUserOrders (margin monitor, src lines 203–259)

The per-order decision of `updateUserOrders`.  The externally computed
inputs are passed as booleans: `tooMuchLeverage` is
`user.getFreeCollateral().eq(ZERO)`, `collateralZero` is
`user.getUserAccount().collateral.eq(ZERO)`, and `orderIsRiskIncreasing` /
`orderIsReduceOnly` are the SDK's policy evaluations of the order against
the user's current position. -/

/-- Which branch of `updateUserOrders` fires for one order: one of the three
disable branches, or the final enable branch. -/
inductive OrderDisposition
  | disabledLeverageRisk
  | disabledReduceOnlyMismatch
  | disabledNoCollateral
  | enabled
deriving DecidableEq, Repr

/-- The branch selection of `updateUserOrders` for a single order,
transcribed from src lines 216–255. -/
def updateUserOrdersAction (tooMuchLeverage : Bool) (collateralZero : Bool)
    (orderIsRiskIncreasing : Bool) (orderIsReduceOnly : Bool)
    (order : Order) : OrderDisposition :=
  if tooMuchLeverage ∧ orderIsRiskIncreasing then
    OrderDisposition.disabledLeverageRisk
  else if ¬ orderIsReduceOnly ∧ order.reduceOnly then
    OrderDisposition.disabledReduceOnlyMismatch
  else if collateralZero then
    OrderDisposition.disabledNoCollateral
  else
    OrderDisposition.enabled

/-! ## processUser sleep interval (src lines 274–287) -/

/-- ECMAScript `Math.round`: round to nearest, half toward positive
infinity, i.e. `⌊x + 1/2⌋`. -/
def jsMathRound (x : ℚ) : ℤ :=
  ⌊x + 1 / 2⌋

/-- The adaptive sleep interval computed at the end of each `processUser`
cycle (src lines 280–285): `Math.min(Math.round(marginRatioNumber * 100)
** 2, oneMinute)` with `oneMinute = 1000 * 60`. -/
def processUserSleepTime (marginRatioNumber : ℚ) : ℤ :=
  min ((jsMathRound (marginRatioNumber * 100)) ^ 2) (1000 * 60)

/-! ## handleOrderRecord and the initial bulk load (src lines 127–137 and
350–394) -/

/-- The kinds of order life-cycle records the handler distinguishes,
`record.action` in the source. -/
inductive OrderRecordAction
  | place
  | cancel
  | expire
  | fill
deriving DecidableEq, Repr, Inhabited

/-- An order-history record as read by `handleOrderRecord`: the action, the
order after the action, and the owning user account. -/
structure OrderHistoryRecord where
  action : OrderRecordAction
  order : Order
  user : Nat
deriving DecidableEq, Repr, Inhabited

/-- `handleOrderRecord` (src lines 350–394) as a book transition: market
orders are disregarded up front; `place` inserts, `cancel` and `expire`
remove, and `fill` removes when the order is completely filled and
updates otherwise. -/
def handleOrderRecord (dlob : DLOB) (record : OrderHistoryRecord) : DLOB :=
  if record.order.orderType = OrderType.market then dlob
  else
    match record.action with
    | OrderRecordAction.place => dlob.insert record.order
    | OrderRecordAction.cancel => dlob.remove record.order
    | OrderRecordAction.expire => dlob.remove record.order
    | OrderRecordAction.fill =>
        if record.order.baseAssetAmount = record.order.baseAssetAmountFilled
        then dlob.remove record.order
        else dlob.update record.order

/-- The initial bulk load of `runBot` (src lines 127–137): for every fetched
user-orders account, insert each of its orders into the book. No
filtering by order kind takes place on this path. -/
def bulkLoadOrders (dlob : DLOB) (userOrdersAccounts : List (List Order)) : DLOB :=
  userOrdersAccounts.foldl
    (fun d orders => orders.foldl DLOB.insert d) dlob

/-! ## Fill-attempt failure handler (src lines 677–702)

The `.catch` continuation of `clearingHouse.fillOrder(...)` in
`tryFillForMarket`. Its effects: clear the node's `haveFilled` flag, put
the user back in the map with `upToDate: true`, and — only when the
error code extracted from the failure is 6043 ("order does not exist") —
force-refresh the user's accounts and remove the order from the book.
The error-code extraction (`getErrorCode`, src/error.ts, not under src/)
is abstracted by passing the extracted code as the input. -/

/-- Result of running the fill-failure handler: the node's
`filled-in-flight` flag, the owner's freshness flag, whether
`user.fetchAccounts()` was invoked, the book afterwards, and the order
identifiers of any fill attempts the handler itself dispatches. -/
structure FillFailureResult where
  haveFilled : Bool
  userUpToDate : Bool
  accountsFetched : Bool
  dlob : DLOB
  redispatched : List Nat
deriving DecidableEq, Repr

/-- The fill-failure handler of `tryFillForMarket` (src lines 677–702),
given the error code of the failed attempt and the failed node's order. -/
def handleFillError (errorCode : Nat) (order : Order) (dlob : DLOB) :
    FillFailureResult :=
  let base : FillFailureResult :=
    { haveFilled := false
      userUpToDate := true
      accountsFetched := false
      dlob := dlob
      redispatched := [] }
  if errorCode = 6043 then
    { base with accountsFetched := true, dlob := dlob.remove order }
  else
    base

/-! ## The user map

`userMap` (src line 309) maps a user account key to `{ user, upToDate }`.
The `user` handle is opaque to the properties below, so an entry is
embedded as its `upToDate` boolean. `Map.get` is `List.lookup`;
`Map.set` replaces the existing binding or appends a new one. -/

/-- `Map.set` on the embedded user map: replace the binding of `k` if
present, otherwise add it. -/
def setKey (m : List (Nat × Bool)) (k : Nat) (v : Bool) : List (Nat × Bool) :=
  match m with
  | [] => [(k, v)]
  | (k', v') :: rest =>
      if k' = k then (k, v) :: rest else (k', v') :: setKey rest k v

/-! ## Candidate scanning: findNodesToFill (src lines 459–510) -/

/-- The direction of an order list, determining its crossing test. -/
inductive SortDirection
  | asc
  | desc
deriving DecidableEq, Repr, Inhabited

/-- A book node (src/dlob/OrderList.ts): an order plus the owning accounts,
the `filled-in-flight` flag, and the direction of the list it sits in
(the linked `next` pointer is embedded by scanning a `List Node`). -/
structure Node where
  order : Order
  userAccount : Nat
  userOrdersAccount : Nat
  haveFilled : Bool
  sortDirection : SortDirection
deriving DecidableEq, Repr, Inhabited

/-- Modelled from the spec: `Node.pricesCross` (src/dlob/OrderList.ts, not
under src/), per §4.1 — "a descending bid list crosses when `price <=
head.effectivePrice`; an ascending ask list crosses when `price >=
head.effectivePrice`", where the effective price of a floating
(non-zero oracle offset, §4.2) order is its oracle offset and of a fixed
order its limit price. -/
def Node.pricesCross (node : Node) (price : Int) : Bool :=
  let effectivePrice :=
    if node.order.oraclePriceOffset ≠ 0 then node.order.oraclePriceOffset
    else node.order.price
  match node.sortDirection with
  | SortDirection.desc => price ≤ effectivePrice
  | SortDirection.asc => price ≥ effectivePrice

/-- The scan loop of `findNodesToFill` (src lines 469–510), transcribed
with its `node`/`currentNode` distinction: `node` is the function's
head-node argument and stays fixed while `currentNode` walks the list.
The loop stops at the first non-crossing node; the post-only /
oracle-offset exception and the user-map lookup both read `node` (the
head), exactly as the source does. A user absent from the map is
fetched, added with `upToDate: true`, and treated as up to date. Returns
the selected candidates and the resulting user map. -/
def findNodesToFill (node : Node) (markPrice : Int)
    (userMap : List (Nat × Bool)) :
    List Node → (List Node × List (Nat × Bool))
  | [] => ([], userMap)
  | currentNode :: rest =>
    if ¬ currentNode.pricesCross markPrice then ([], userMap)
    else if node.order.postOnly ∧ node.order.oraclePriceOffset ≠ 0 ∧
        node.order.direction = OrderDirection.long ∧
        markPrice ≥ node.order.price then
      findNodesToFill node markPrice userMap rest
    else if node.order.postOnly ∧ node.order.oraclePriceOffset ≠ 0 ∧
        node.order.direction = OrderDirection.short ∧
        markPrice ≤ node.order.price then
      findNodesToFill node markPrice userMap rest
    else
      match userMap.lookup node.userAccount with
      | none =>
          let userMapFetched := setKey userMap node.userAccount true
          let res := findNodesToFill node markPrice userMapFetched rest
          ((if ¬ currentNode.haveFilled then [currentNode] else []) ++ res.1,
            res.2)
      | some upToDate =>
          let res := findNodesToFill node markPrice userMap rest
          ((if ¬ currentNode.haveFilled ∧ upToDate then [currentNode] else [])
            ++ res.1, res.2)

/-- `findNodesToFillFromOrderList` (src lines 459–467): scan an order list
from its head when the head exists and crosses the reference price. -/
def findNodesToFillFromOrderList (orderList : List Node) (price : Int)
    (userMap : List (Nat × Bool)) : List Node × List (Nat × Bool) :=
  match orderList with
  | [] => ([], userMap)
  | head :: _ =>
      if head.pricesCross price then
        findNodesToFill head price userMap orderList
      else ([], userMap)

/-! ## fetchAllUsers (src lines 313–346) -/

/-- `QUOTE_PRECISION` of the SDK: 10^6, one dollar of quote. -/
def QUOTE_PRECISION : Int := 1000000

/-- A `user` program account as read during the initial bulk user load. -/
structure ProgramUserAccount where
  pubkey : Nat
  collateral : Int
deriving DecidableEq, Repr, Inhabited

/-- `fetchAllUsers` (src lines 313–346): build `userArray`, skipping
accounts below one dollar of collateral and accounts already in the user
map, then subscribe each collected user, add it to the map as up to
date, and start its `processUser` cycle. Returns the keys of the users
collected (= subscribed and processed) and the resulting user map. -/
def fetchAllUsers (programUserAccounts : List ProgramUserAccount)
    (userMap : List (Nat × Bool)) : List Nat × List (Nat × Bool) :=
  let userArray := programUserAccounts.foldl
    (fun arr account =>
      if account.collateral < QUOTE_PRECISION then arr
      else if (userMap.lookup account.pubkey).isSome then arr
      else arr ++ [account.pubkey]) []
  (userArray, userArray.foldl (fun m key => setKey m key true) userMap)

/-! ## tryFillForMarket: pass guard and dispatch loop (src lines 512–710) -/

/-- The mutable state threaded through the dispatch loop over
`unfilledNodes` (src lines 616–703): the user map, the order identifiers
marked `haveFilled` by this pass, the order identifiers for which
`clearingHouse.fillOrder` was invoked, and the user accounts fetched via
`fetchUserAndAddToUserMap`. -/
structure DispatchState where
  userMap : List (Nat × Bool)
  markedFilled : List Nat
  dispatched : List Nat
  fetchedUsers : List Nat
deriving DecidableEq, Repr

/-- The dispatch loop of `tryFillForMarket` over `unfilledNodes` (src lines
616–703). A node whose owner is absent from the user map triggers
`fetchUserAndAddToUserMap` (which subscribes the user, starts its
monitor cycle and adds it to the map as up to date) and is then skipped
by `continue`. For limit and trigger-limit orders, if either the market
side or the user side can execute less than the market's minimum trade
size the node is skipped. Otherwise the owner is marked stale, the node
is marked `haveFilled`, and the fill attempt is dispatched. The
externally computed executable sizes are the function arguments
`marketCanExecute` and `userCanExecute`. -/
def dispatchUnfilledNodes (minimumTradeSize : Int)
    (marketCanExecute userCanExecute : Order → Int) :
    List Node → DispatchState → DispatchState
  | [], s => s
  | nodeToFill :: rest, s =>
    match s.userMap.lookup nodeToFill.userAccount with
    | none =>
        dispatchUnfilledNodes minimumTradeSize marketCanExecute userCanExecute
          rest
          { s with
            userMap := setKey s.userMap nodeToFill.userAccount true
            fetchedUsers := nodeToFill.userAccount :: s.fetchedUsers }
    | some _ =>
        if (nodeToFill.order.orderType = OrderType.limit ∨
              nodeToFill.order.orderType = OrderType.triggerLimit) ∧
            (marketCanExecute nodeToFill.order < minimumTradeSize ∨
              userCanExecute nodeToFill.order < minimumTradeSize) then
          dispatchUnfilledNodes minimumTradeSize marketCanExecute
            userCanExecute rest s
        else
          dispatchUnfilledNodes minimumTradeSize marketCanExecute
            userCanExecute rest
            { s with
              userMap := setKey s.userMap nodeToFill.userAccount false
              markedFilled := nodeToFill.order.orderId :: s.markedFilled
              dispatched := nodeToFill.order.orderId :: s.dispatched }

/-- The outer shell of `tryFillForMarket` (src lines 512–517 and 704–710):
the per-market exclusive flag `perMarketMutex`. If the flag for the
market is already set the pass returns immediately with nothing
dispatched; otherwise the flag is set, the body runs — its dispatches
and possible error are the `passBody` argument, since an error thrown
anywhere in the body is caught and logged — and the `finally` clause
clears the flag. Returns the flag array and the dispatched order
identifiers. -/
def tryFillForMarket (marketIndex : Nat) (perMarketMutex : List Nat)
    (passBody : List Nat × Option Unit) : List Nat × List Nat :=
  if perMarketMutex.getD marketIndex 0 = 1 then (perMarketMutex, [])
  else
    let locked := perMarketMutex.set marketIndex 1
    (locked.set marketIndex 0, passBody.1)

/-! ## updateOrderList: the event-drain loop (src lines 396–424)

The order-history account is a fixed-size circular log with a head
index. `updateOrderList` is guarded by `updateOrderListMutex`; the body
walks `nextOrderHistoryIndex` toward `head` modulo the log length,
applying `handleOrderRecord` to each record. `await handleOrderRecord`
can reject (its account fetch and book mutations are asynchronous), so
the applied transition is passed in as a fallible function `applyRecord`
— for the pure book semantics it is
`fun record dlob => Except.ok (handleOrderRecord dlob record)`. The
`catch` clause logs the error; the `finally` clause clears the mutex.
The while loop is embedded with a fuel argument; any fuel at least the
ring distance from cursor to head gives the loop's behaviour. -/

/-- The order-history account: head index and circular record buffer. -/
structure EventLog where
  head : Nat
  orderRecords : List OrderHistoryRecord
deriving Repr, Inhabited

/-- The event processor's state: the reentrancy guard
`updateOrderListMutex`, the cursor `nextOrderHistoryIndex`, and the
book. -/
structure ProcessorState where
  updateOrderListMutex : Nat
  nextOrderHistoryIndex : Nat
  dlob : DLOB
deriving Repr, Inhabited

/-- The while loop of `updateOrderList` (src lines 408–417): while the
cursor differs from the head, apply the record at the cursor; on
success advance the cursor modulo the log length and continue, on
failure stop with the error (caught by the surrounding `catch`).
Returns the final cursor, the final book, and the error if one was
thrown. -/
def drainLoop (applyRecord : OrderHistoryRecord → DLOB → Except Unit DLOB)
    (log : EventLog) :
    Nat → Nat → DLOB → Nat × DLOB × Option Unit
  | 0, cursor, dlob => (cursor, dlob, none)
  | fuel + 1, cursor, dlob =>
    if cursor = log.head then (cursor, dlob, none)
    else
      match applyRecord (log.orderRecords.getD cursor default) dlob with
      | Except.error e => (cursor, dlob, some e)
      | Except.ok dlob' =>
          drainLoop applyRecord log fuel
            ((cursor + 1) % log.orderRecords.length) dlob'

/-- `updateOrderList` (src lines 396–424): if the mutex is held, return at
once; otherwise take the mutex, run the drain loop, and — whether the
loop completed or threw — clear the mutex and keep the cursor and book
the loop reached. -/
def updateOrderList
    (applyRecord : OrderHistoryRecord → DLOB → Except Unit DLOB)
    (log : EventLog) (fuel : Nat) (s : ProcessorState) : ProcessorState :=
  if s.updateOrderListMutex = 1 then s
  else
    let res := drainLoop applyRecord log fuel s.nextOrderHistoryIndex s.dlob
    { updateOrderListMutex := 0
      nextOrderHistoryIndex := res.1
      dlob := res.2.1 }

/-- Ring distance from `cursor` to `head` in a circular log of length
`len`: the number of records a complete drain applies. -/
def ringDist (len cursor head : Nat) : Nat :=
  if cursor ≤ head then head - cursor else len - (cursor - head)

/-- All-successful replay of `k` records starting at index `cursor`:
`some` of the resulting book when every application succeeds, `none` if
any of them fails. Used to state that a drain applies exactly the
records it advanced over, each once. -/
def replayRecords
    (applyRecord : OrderHistoryRecord → DLOB → Except Unit DLOB)
    (log : EventLog) : Nat → Nat → DLOB → Option DLOB
  | _, 0, dlob => some dlob
  | cursor, k + 1, dlob =>
    match applyRecord (log.orderRecords.getD cursor default) dlob with
    | Except.error _ => none
    | Except.ok dlob' =>
        replayRecords applyRecord log ((cursor + 1) % log.orderRecords.length)
          k dlob'

/-! ## Concrete inputs used by the witnesses -/

/-- A plain resting limit order used by several witnesses. -/
def wOrder : Order :=
  { orderId := 4
    marketIndex := 0
    direction := OrderDirection.long
    orderType := OrderType.limit
    price := 100
    oraclePriceOffset := 0
    postOnly := false
    reduceOnly := false
    baseAssetAmount := 10
    baseAssetAmountFilled := 0 }

/-- The pure application of `handleOrderRecord`, the no-failure instance of
the drain loop's record application. -/
def pureApplyRecord (record : OrderHistoryRecord) (dlob : DLOB) :
    Except Unit DLOB :=
  Except.ok (handleOrderRecord dlob record)

/-- The head node shared by the C1 and C5 divergence inputs: a floating
(oracle-offset) bid that is not post-only, owned by user 7. -/
def scanHeadNode : Node :=
  { order :=
      { orderId := 1
        marketIndex := 0
        direction := OrderDirection.long
        orderType := OrderType.limit
        price := 0
        oraclePriceOffset := 100
        postOnly := false
        reduceOnly := false
        baseAssetAmount := 10
        baseAssetAmountFilled := 0 }
    userAccount := 7
    userOrdersAccount := 70
    haveFilled := false
    sortDirection := SortDirection.desc }

/-- A two-record event log with head index 1. -/
def wLog : EventLog :=
  { head := 1
    orderRecords :=
      [ { action := OrderRecordAction.place, order := wOrder, user := 7 }
      , { action := OrderRecordAction.cancel, order := wOrder, user := 7 } ] }

/-- An idle processor state: mutex free, cursor 0, empty book. -/
def wProcessorState : ProcessorState :=
  { updateOrderListMutex := 0
    nextOrderHistoryIndex := 0
    dlob := { openOrders := [] } }

/-! # Theorems -/

/-! ## Helper lemmas -/

theorem lookup_setKey_self (m : List (Nat × Bool)) (k : Nat) (v : Bool) :
    (setKey m k v).lookup k = some v := by
  induction m with
  | nil => simp [setKey, List.lookup]
  | cons head tail ih =>
      obtain ⟨k', v'⟩ := head
      by_cases h : k' = k
      · simp [setKey, h, List.lookup]
      · simp only [setKey, if_neg h, List.lookup]
        have : (k == k') = false := by
          simp [beq_iff_eq]
          omega
        simp [this, ih]

theorem lookup_setKey_of_ne (m : List (Nat × Bool)) (k p : Nat) (v : Bool)
    (h : k ≠ p) : (setKey m k v).lookup p = m.lookup p := by
  induction m with
  | nil =>
      have : (p == k) = false := by simp [beq_iff_eq]; omega
      simp [setKey, List.lookup, this]
  | cons head tail ih =>
      obtain ⟨k', v'⟩ := head
      by_cases h' : k' = k
      · subst h'
        have : (p == k') = false := by simp [beq_iff_eq]; omega
        simp [setKey, List.lookup, this]
      · simp only [setKey, if_neg h', List.lookup]
        by_cases hp : p = k'
        · simp [hp]
        · have : (p == k') = false := by simp [beq_iff_eq]; omega
          simp [this, ih]

theorem getD_set_zero (l : List Nat) (m : Nat) :
    ((l.set m 0).getD m 0) = 0 := by
  induction l generalizing m with
  | nil => simp [List.getD]
  | cons head tail ih =>
      cases m with
      | zero => simp [List.set, List.getD]
      | succ m' => simpa [List.set, List.getD] using ih m'

theorem two_mul_mod (a n : Nat) (h : a < 2 * n) :
    a % n = if a < n then a else a - n := by
  by_cases h1 : a < n
  · simp [if_pos h1, Nat.mod_eq_of_lt h1]
  · have h2 : n ≤ a := Nat.le_of_not_lt h1
    have h3 : a - n < n := by omega
    rw [if_neg h1, Nat.mod_eq_sub_mod h2, Nat.mod_eq_of_lt h3]

/-! ## C8: the adaptive sleep interval (confirmed) -/

/-- C8: for every margin-ratio value `r` computed for the user, the sleep
interval before the next `processUser` cycle equals
`min((round(r * 100))^2, 60000)` milliseconds. -/
theorem c8_sleep_interval (r : ℚ) :
    processUserSleepTime r = min ((round (r * 100) : ℤ) ^ 2) 60000 := by
  unfold processUserSleepTime jsMathRound
  rw [← round_eq]
  norm_num

/-! ## C2: the flag/intent-mismatch disable condition (corrected)

The claim states the order is disabled under the mismatch condition
exactly when the policy says the order would not reduce the position
AND the order does **not** carry the reduce-only flag. The source (lines
225–233) disables when `!orderIsReduceOnly && order.reduceOnly`, i.e.
when the order **does** carry the flag; its log line — "is risk
increasing but reduce only" — confirms that reading. -/

/-- C2 counterexample: an order that would not reduce the position
(`orderIsReduceOnly = false`) and does not carry the reduce-only flag.
The claim's condition holds, yet `updateUserOrders` enables the order
rather than disabling it for flag/intent mismatch. -/
theorem c2_counterexample :
    ¬ (updateUserOrdersAction false false true false
          { orderId := 1
            marketIndex := 0
            direction := OrderDirection.long
            orderType := OrderType.limit
            price := 100
            oraclePriceOffset := 0
            postOnly := false
            reduceOnly := false
            baseAssetAmount := 10
            baseAssetAmountFilled := 0 }
          = OrderDisposition.disabledReduceOnlyMismatch
        ↔ (¬ (false : Bool) ∧
            ¬ ({ orderId := 1
                 marketIndex := 0
                 direction := OrderDirection.long
                 orderType := OrderType.limit
                 price := 100
                 oraclePriceOffset := 0
                 postOnly := false
                 reduceOnly := false
                 baseAssetAmount := 10
                 baseAssetAmountFilled := 0 : Order }.reduceOnly))) := by
  decide

/-- C2 as amended: whenever the first disable condition (free collateral
exhausted and risk-increasing) does not fire, the order is disabled
under the flag/intent-mismatch condition exactly when the policy
evaluation says the order would not actually reduce the position while
the order **does** carry the reduce-only flag; the condition is
evaluated before the zero-collateral condition (the equivalence holds
for every value of `collateralZero`). -/
theorem c2_flag_mismatch_disable (tooMuchLeverage collateralZero
    orderIsRiskIncreasing orderIsReduceOnly : Bool) (order : Order)
    (h : ¬ (tooMuchLeverage ∧ orderIsRiskIncreasing)) :
    updateUserOrdersAction tooMuchLeverage collateralZero
        orderIsRiskIncreasing orderIsReduceOnly order
      = OrderDisposition.disabledReduceOnlyMismatch
    ↔ (¬ orderIsReduceOnly ∧ order.reduceOnly) := by
  cases htl : tooMuchLeverage <;>
    cases hri : orderIsRiskIncreasing <;>
      cases hro : orderIsReduceOnly <;>
        cases hflag : order.reduceOnly <;>
          cases hcz : collateralZero <;>
            simp_all [updateUserOrdersAction]

/-- C2 witness: with ample collateral, a risk-increasing order that the
policy says would not reduce the position and that carries the
reduce-only flag is disabled for flag/intent mismatch. -/
theorem c2_flag_mismatch_disable_witness :
    (¬ ((false : Bool) ∧ (true : Bool))) ∧
      (updateUserOrdersAction false false true false
          { wOrder with reduceOnly := true }
        = OrderDisposition.disabledReduceOnlyMismatch
      ↔ (¬ (false : Bool) ∧ ({ wOrder with reduceOnly := true } : Order).reduceOnly)) :=
  ⟨by decide,
    c2_flag_mismatch_disable false false true false
      { wOrder with reduceOnly := true } (by decide)⟩

/-! ## C3: market orders and the book (corrected)

`handleOrderRecord` disregards market orders before any book mutation,
but the initial bulk load of `runBot` (src lines 127–137) inserts every
order of every fetched user-orders account with no filtering by order
kind, so a market-type order present there enters the tracked set. -/

/-- C3 counterexample: bulk-loading a user-orders account that holds a
market order inserts that order into the book's tracked set. -/
theorem c3_counterexample :
    (bulkLoadOrders { openOrders := [] }
        [[ { orderId := 5
             marketIndex := 0
             direction := OrderDirection.short
             orderType := OrderType.market
             price := 0
             oraclePriceOffset := 0
             postOnly := false
             reduceOnly := false
             baseAssetAmount := 10
             baseAssetAmountFilled := 0 } ]]).openOrders = [5] := by
  decide

/-- C3 as amended: the application of an order event whose order is
market-type never mutates the book — such events are disregarded
entirely — while the initial bulk load performs no filtering by order
kind and does insert market-type orders present in the loaded
user-orders accounts. -/
theorem c3_market_event_noop (dlob : DLOB) (record : OrderHistoryRecord)
    (h : record.order.orderType = OrderType.market) :
    handleOrderRecord dlob record = dlob := by
  unfold handleOrderRecord
  rw [if_pos h]

/-- C3 witness: a `place` event for a market order leaves the empty book
unchanged. -/
theorem c3_market_event_noop_witness :
    (({ action := OrderRecordAction.place
        order := { wOrder with orderType := OrderType.market }
        user := 7 } : OrderHistoryRecord).order.orderType
      = OrderType.market) ∧
    handleOrderRecord { openOrders := [] }
        { action := OrderRecordAction.place
          order := { wOrder with orderType := OrderType.market }
          user := 7 }
      = { openOrders := [] } :=
  ⟨by decide,
    c3_market_event_noop { openOrders := [] }
      { action := OrderRecordAction.place
        order := { wOrder with orderType := OrderType.market }
        user := 7 } (by decide)⟩

/-! ## C6: the per-market exclusive flag (confirmed) -/

/-- C6: a fill-scheduling pass requested while the market's flag is held
returns immediately with nothing dispatched and no state change (no
queuing, no blocking); a pass that does acquire the flag leaves the
flag cleared on every exit path — the body's error, if any, is caught
before the `finally` clause runs — and its dispatches are exactly what
the body dispatched before completing or failing. -/
theorem c6_per_market_mutex (marketIndex : Nat) (perMarketMutex : List Nat)
    (passBody : List Nat × Option Unit) :
    (perMarketMutex.getD marketIndex 0 = 1 →
      tryFillForMarket marketIndex perMarketMutex passBody
        = (perMarketMutex, [])) ∧
    (perMarketMutex.getD marketIndex 0 ≠ 1 →
      ((tryFillForMarket marketIndex perMarketMutex passBody).1.getD
          marketIndex 0 = 0 ∧
        (tryFillForMarket marketIndex perMarketMutex passBody).2
          = passBody.1)) := by
  constructor
  · intro h
    unfold tryFillForMarket
    rw [if_pos h]
  · intro h
    unfold tryFillForMarket
    rw [if_neg h]
    refine ⟨?_, rfl⟩
    simp only [List.set_set]
    exact getD_set_zero perMarketMutex marketIndex

/-- C6 witness: with market 0's flag held, a second pass is a no-op with
nothing dispatched; with the flag free, the pass ends with the flag
cleared even though its body threw an error. -/
theorem c6_per_market_mutex_witness :
    (tryFillForMarket 0 [1, 0] ([9], some ()) = ([1, 0], [])) ∧
    ((tryFillForMarket 0 [0, 1] ([9], some ())).1.getD 0 0 = 0) :=
  ⟨(c6_per_market_mutex 0 [1, 0] ([9], some ())).1 (by decide),
    ((c6_per_market_mutex 0 [0, 1] ([9], some ())).2 (by decide)).1⟩

/-! ## C7: fill-attempt failure handling (confirmed) -/

/-- C7: on every failed fill attempt the node's `filled-in-flight` mark is
cleared and the owner's record restored to up to date; the user's
accounts are force-refreshed exactly when the error code is 6043
(order no longer exists), in which case — and only then — the order is
also removed from the book (absent from the tracked set afterwards,
given a duplicate-free book); the handler never dispatches a retry of
the attempt. -/
theorem c7_fill_failure (errorCode : Nat) (order : Order) (dlob : DLOB) :
    (handleFillError errorCode order dlob).haveFilled = false ∧
    (handleFillError errorCode order dlob).userUpToDate = true ∧
    ((handleFillError errorCode order dlob).accountsFetched = true
      ↔ errorCode = 6043) ∧
    (errorCode = 6043 →
      (handleFillError errorCode order dlob).dlob = dlob.remove order) ∧
    (errorCode ≠ 6043 →
      (handleFillError errorCode order dlob).dlob = dlob) ∧
    (dlob.openOrders.Nodup → errorCode = 6043 →
      order.orderId ∉ (handleFillError errorCode order dlob).dlob.openOrders) ∧
    (handleFillError errorCode order dlob).redispatched = [] := by
  by_cases h : errorCode = 6043
  · refine ⟨by simp [handleFillError, h], by simp [handleFillError, h],
      by simp [handleFillError, h], fun _ => by simp [handleFillError, h],
      fun hne => absurd h hne, fun hnd _ => ?_, by simp [handleFillError, h]⟩
    simp only [handleFillError, if_pos h, DLOB.remove]
    intro hmem
    exact absurd (hnd.mem_erase_iff.mp hmem).1 (by simp)
  · exact ⟨by simp [handleFillError, h], by simp [handleFillError, h],
      by simp [handleFillError, h], fun heq => absurd heq h,
      fun _ => by simp [handleFillError, h],
      fun hnd heq => absurd heq h, by simp [handleFillError, h]⟩

/-- C7 witness: a failure with code 6043 on a tracked order clears the
in-flight mark, restores the user, refreshes accounts, and removes the
order from the book. -/
theorem c7_fill_failure_witness :
    (handleFillError 6043 wOrder { openOrders := [4, 7] }).haveFilled
        = false ∧
    (handleFillError 6043 wOrder { openOrders := [4, 7] }).userUpToDate
        = true ∧
    ((handleFillError 6043 wOrder { openOrders := [4, 7] }).accountsFetched
        = true ↔ (6043 : Nat) = 6043) ∧
    ((6043 : Nat) = 6043 →
      (handleFillError 6043 wOrder { openOrders := [4, 7] }).dlob
        = DLOB.remove { openOrders := [4, 7] } wOrder) ∧
    ((6043 : Nat) ≠ 6043 →
      (handleFillError 6043 wOrder { openOrders := [4, 7] }).dlob
        = { openOrders := [4, 7] }) ∧
    (([4, 7] : List Nat).Nodup → (6043 : Nat) = 6043 →
      wOrder.orderId
        ∉ (handleFillError 6043 wOrder { openOrders := [4, 7] }).dlob.openOrders) ∧
    (handleFillError 6043 wOrder { openOrders := [4, 7] }).redispatched = [] :=
  c7_fill_failure 6043 wOrder { openOrders := [4, 7] }

/-! ## C1 and C5: the candidate scan reads the head node (code bugs)

Inside the scan loop of `findNodesToFill` the source reads `node.order`
(line 481) and `node.userAccount` (line 494) — `node` is the fixed
head-node argument — while `currentNode` walks the list and the two
skip paths (`continue`) and the push all act on `currentNode`. The
post-only/oracle-offset exception and the owner-freshness check are
therefore evaluated against the head's order and the head's owner at
every step, not against the current node's own, contradicting §4.1/§4.4
(the exception "is evaluated per-node during candidate scanning") and
§4.5 ("a user with a stale record is not used to authorize new
candidate selection"). -/

/-- C1: divergence of the post-only/oracle-offset exception. The second
node of the scanned list is post-only with a non-zero oracle offset, is
long, and the reference price 50 has risen to meet its limit price 40 —
by the claim it must be excluded — yet the scan selects it, because the
exception is evaluated on the head node's order, which is not
post-only, so the exception never fires during the scan. The reference
price crosses both nodes, both owners are up to date and neither node
is marked `haveFilled`. -/
theorem c1_post_only_exception_divergence :
    ({ order :=
         { orderId := 2
           marketIndex := 0
           direction := OrderDirection.long
           orderType := OrderType.limit
           price := 40
           oraclePriceOffset := 60
           postOnly := true
           reduceOnly := false
           baseAssetAmount := 10
           baseAssetAmountFilled := 0 }
       userAccount := 8
       userOrdersAccount := 80
       haveFilled := false
       sortDirection := SortDirection.desc } : Node)
      ∈ (findNodesToFill scanHeadNode 50 [(7, true), (8, true)]
          [ scanHeadNode
          , { order :=
                { orderId := 2
                  marketIndex := 0
                  direction := OrderDirection.long
                  orderType := OrderType.limit
                  price := 40
                  oraclePriceOffset := 60
                  postOnly := true
                  reduceOnly := false
                  baseAssetAmount := 10
                  baseAssetAmountFilled := 0 }
              userAccount := 8
              userOrdersAccount := 80
              haveFilled := false
              sortDirection := SortDirection.desc } ]).1 := by
  decide

/-- C5: divergence of the stale-owner exclusion. The second node's owner
(user 8) is stale in the user map, so by the claim it must not be
selected; the scan selects it anyway because it consults the freshness
of the head's owner (user 7, up to date). Both nodes cross the
reference price, neither is marked `haveFilled`, and no post-only
exception applies to either order. -/
theorem c5_stale_owner_divergence :
    ([(7, true), (8, false)] : List (Nat × Bool)).lookup 8 = some false ∧
    ({ order :=
         { orderId := 3
           marketIndex := 0
           direction := OrderDirection.long
           orderType := OrderType.limit
           price := 40
           oraclePriceOffset := 60
           postOnly := false
           reduceOnly := false
           baseAssetAmount := 10
           baseAssetAmountFilled := 0 }
       userAccount := 8
       userOrdersAccount := 80
       haveFilled := false
       sortDirection := SortDirection.desc } : Node)
      ∈ (findNodesToFill scanHeadNode 50 [(7, true), (8, false)]
          [ scanHeadNode
          , { order :=
                { orderId := 3
                  marketIndex := 0
                  direction := OrderDirection.long
                  orderType := OrderType.limit
                  price := 40
                  oraclePriceOffset := 60
                  postOnly := false
                  reduceOnly := false
                  baseAssetAmount := 10
                  baseAssetAmountFilled := 0 }
              userAccount := 8
              userOrdersAccount := 80
              haveFilled := false
              sortDirection := SortDirection.desc } ]).1 := by
  exact ⟨by decide, by decide⟩

/-! ## C9: the initial bulk user load skips sub-dollar accounts (confirmed) -/

theorem fetchAllUsers_foldl_not_mem (userMap : List (Nat × Bool)) (p : Nat) :
    ∀ (accounts : List ProgramUserAccount) (acc : List Nat),
      (∀ b ∈ accounts, b.pubkey = p → b.collateral < QUOTE_PRECISION) →
      p ∉ acc →
      p ∉ accounts.foldl
        (fun arr account =>
          if account.collateral < QUOTE_PRECISION then arr
          else if (userMap.lookup account.pubkey).isSome then arr
          else arr ++ [account.pubkey]) acc := by
  intro accounts
  induction accounts with
  | nil => intro acc _ hacc; simpa using hacc
  | cons a t ih =>
      intro acc hlow hacc
      simp only [List.foldl_cons]
      refine ih _ (fun b hb => hlow b (List.mem_cons_of_mem a hb)) ?_
      by_cases h1 : a.collateral < QUOTE_PRECISION
      · simpa [h1] using hacc
      · have hne : a.pubkey ≠ p := by
          intro heq
          exact h1 (hlow a (List.mem_cons_self a t) heq)
        by_cases h2 : (userMap.lookup a.pubkey).isSome
        · simpa [h1, h2] using hacc
        · simp only [if_neg h1, if_neg h2, List.mem_append,
            List.mem_singleton]
          rintro (h | h)
          · exact hacc h
          · exact hne h.symm

theorem foldl_setKey_lookup_of_not_mem (p : Nat) :
    ∀ (keys : List Nat) (m : List (Nat × Bool)), p ∉ keys →
      (keys.foldl (fun m' key => setKey m' key true) m).lookup p
        = m.lookup p := by
  intro keys
  induction keys with
  | nil => intro m _; rfl
  | cons k t ih =>
      intro m hmem
      simp only [List.foldl_cons]
      rw [ih _ (fun h => hmem (List.mem_cons_of_mem k h))]
      exact lookup_setKey_of_ne m k p true
        (fun h => hmem (h ▸ List.mem_cons_self k t))

/-- C9: during the initial bulk user load, every `user` program account
whose collateral is below one dollar (`QUOTE_PRECISION`) and whose key
is not already in the user map is skipped entirely: its key is not
among the users subscribed and handed to `processUser`, and the
resulting user map still has no record for it. (The hypothesis is
stated for every occurrence of the key, since accounts are keyed by
their public key.) -/
theorem c9_low_collateral_skip (accounts : List ProgramUserAccount)
    (userMap : List (Nat × Bool)) (p : Nat)
    (hlow : ∀ b ∈ accounts, b.pubkey = p →
      b.collateral < QUOTE_PRECISION)
    (hmap : userMap.lookup p = none) :
    p ∉ (fetchAllUsers accounts userMap).1 ∧
    (fetchAllUsers accounts userMap).2.lookup p = none := by
  have h1 : p ∉ (fetchAllUsers accounts userMap).1 := by
    simp only [fetchAllUsers]
    exact fetchAllUsers_foldl_not_mem userMap p accounts [] hlow
      (List.not_mem_nil p)
  refine ⟨h1, ?_⟩
  simp only [fetchAllUsers] at h1 ⊢
  rw [foldl_setKey_lookup_of_not_mem p _ userMap h1, hmap]

/-- C9 witness: a single account with fifty cents of collateral and a key
unknown to the empty user map is neither processed nor added to the
map. -/
theorem c9_low_collateral_skip_witness :
    (∀ b ∈ [({ pubkey := 3, collateral := 500000 } : ProgramUserAccount)],
      b.pubkey = 3 → b.collateral < QUOTE_PRECISION) ∧
    (([] : List (Nat × Bool)).lookup 3 = none) ∧
    (3 ∉ (fetchAllUsers [{ pubkey := 3, collateral := 500000 }] []).1 ∧
      (fetchAllUsers [{ pubkey := 3, collateral := 500000 }] []).2.lookup 3
        = none) :=
  ⟨by decide, by decide,
    c9_low_collateral_skip [{ pubkey := 3, collateral := 500000 }] [] 3
      (by decide) (by decide)⟩

/-! ## C10: absent owner at dispatch time (corrected)

The fetch-and-skip path itself is real: a candidate occurrence whose
owner is absent triggers `fetchUserAndAddToUserMap` and `continue`,
dispatching and marking nothing for that occurrence. But the pass-wide
exclusion does not hold unconditionally: `unfilledNodes` concatenates
the crossing prefixes of eight lists and §3 shares one Node across the
lists it participates in, so the same order can occur twice among one
pass's candidates; the `!haveFilled` filter (src line 613) runs before
the loop and the fetch path sets no flag, so a second occurrence of the
same order later in the pass finds the freshly registered user and is
dispatched and marked after all. -/

theorem dispatchUnfilledNodes_cons_absent (minSize : Int)
    (mcan ucan : Order → Int) (n : Node) (rest : List Node)
    (s : DispatchState) (h : s.userMap.lookup n.userAccount = none) :
    dispatchUnfilledNodes minSize mcan ucan (n :: rest) s
      = dispatchUnfilledNodes minSize mcan ucan rest
          { s with
            userMap := setKey s.userMap n.userAccount true
            fetchedUsers := n.userAccount :: s.fetchedUsers } := by
  simp only [dispatchUnfilledNodes, h]

theorem dispatchUnfilledNodes_cons_skip (minSize : Int)
    (mcan ucan : Order → Int) (n : Node) (rest : List Node)
    (s : DispatchState) (u : Bool)
    (h : s.userMap.lookup n.userAccount = some u)
    (hc : (n.order.orderType = OrderType.limit ∨
        n.order.orderType = OrderType.triggerLimit) ∧
      (mcan n.order < minSize ∨ ucan n.order < minSize)) :
    dispatchUnfilledNodes minSize mcan ucan (n :: rest) s
      = dispatchUnfilledNodes minSize mcan ucan rest s := by
  simp only [dispatchUnfilledNodes, h, if_pos hc]

theorem dispatchUnfilledNodes_cons_dispatch (minSize : Int)
    (mcan ucan : Order → Int) (n : Node) (rest : List Node)
    (s : DispatchState) (u : Bool)
    (h : s.userMap.lookup n.userAccount = some u)
    (hc : ¬ ((n.order.orderType = OrderType.limit ∨
        n.order.orderType = OrderType.triggerLimit) ∧
      (mcan n.order < minSize ∨ ucan n.order < minSize))) :
    dispatchUnfilledNodes minSize mcan ucan (n :: rest) s
      = dispatchUnfilledNodes minSize mcan ucan rest
          { s with
            userMap := setKey s.userMap n.userAccount false
            markedFilled := n.order.orderId :: s.markedFilled
            dispatched := n.order.orderId :: s.dispatched } := by
  simp only [dispatchUnfilledNodes, h, if_neg hc]

theorem dispatchUnfilledNodes_dispatched_mem (minSize : Int)
    (mcan ucan : Order → Int) :
    ∀ (nodes : List Node) (s : DispatchState) (x : Nat),
      x ∈ (dispatchUnfilledNodes minSize mcan ucan nodes s).dispatched →
      x ∈ s.dispatched ∨ x ∈ nodes.map (fun n => n.order.orderId) := by
  intro nodes
  induction nodes with
  | nil => intro s x h; exact Or.inl h
  | cons n rest ih =>
      intro s x h
      cases hl : s.userMap.lookup n.userAccount with
      | none =>
          rw [dispatchUnfilledNodes_cons_absent minSize mcan ucan n rest s hl]
            at h
          rcases ih _ x h with h' | h'
          · exact Or.inl h'
          · exact Or.inr (List.mem_cons_of_mem _ h')
      | some u =>
          by_cases hc : (n.order.orderType = OrderType.limit ∨
              n.order.orderType = OrderType.triggerLimit) ∧
            (mcan n.order < minSize ∨ ucan n.order < minSize)
          · rw [dispatchUnfilledNodes_cons_skip minSize mcan ucan n rest s u
              hl hc] at h
            rcases ih _ x h with h' | h'
            · exact Or.inl h'
            · exact Or.inr (List.mem_cons_of_mem _ h')
          · rw [dispatchUnfilledNodes_cons_dispatch minSize mcan ucan n rest
              s u hl hc] at h
            rcases ih _ x h with h' | h'
            · rcases List.mem_cons.mp h' with h'' | h''
              · exact Or.inr (by simp [h''])
              · exact Or.inl h''
            · exact Or.inr (List.mem_cons_of_mem _ h')

theorem dispatchUnfilledNodes_markedFilled_mem (minSize : Int)
    (mcan ucan : Order → Int) :
    ∀ (nodes : List Node) (s : DispatchState) (x : Nat),
      x ∈ (dispatchUnfilledNodes minSize mcan ucan nodes s).markedFilled →
      x ∈ s.markedFilled ∨ x ∈ nodes.map (fun n => n.order.orderId) := by
  intro nodes
  induction nodes with
  | nil => intro s x h; exact Or.inl h
  | cons n rest ih =>
      intro s x h
      cases hl : s.userMap.lookup n.userAccount with
      | none =>
          rw [dispatchUnfilledNodes_cons_absent minSize mcan ucan n rest s hl]
            at h
          rcases ih _ x h with h' | h'
          · exact Or.inl h'
          · exact Or.inr (List.mem_cons_of_mem _ h')
      | some u =>
          by_cases hc : (n.order.orderType = OrderType.limit ∨
              n.order.orderType = OrderType.triggerLimit) ∧
            (mcan n.order < minSize ∨ ucan n.order < minSize)
          · rw [dispatchUnfilledNodes_cons_skip minSize mcan ucan n rest s u
              hl hc] at h
            rcases ih _ x h with h' | h'
            · exact Or.inl h'
            · exact Or.inr (List.mem_cons_of_mem _ h')
          · rw [dispatchUnfilledNodes_cons_dispatch minSize mcan ucan n rest
              s u hl hc] at h
            rcases ih _ x h with h' | h'
            · rcases List.mem_cons.mp h' with h'' | h''
              · exact Or.inr (by simp [h''])
              · exact Or.inl h''
            · exact Or.inr (List.mem_cons_of_mem _ h')

theorem dispatchUnfilledNodes_fetched_mono (minSize : Int)
    (mcan ucan : Order → Int) :
    ∀ (nodes : List Node) (s : DispatchState) (x : Nat),
      x ∈ s.fetchedUsers →
      x ∈ (dispatchUnfilledNodes minSize mcan ucan nodes s).fetchedUsers := by
  intro nodes
  induction nodes with
  | nil => intro s x h; exact h
  | cons n rest ih =>
      intro s x h
      cases hl : s.userMap.lookup n.userAccount with
      | none =>
          rw [dispatchUnfilledNodes_cons_absent minSize mcan ucan n rest s hl]
          exact ih _ x (List.mem_cons_of_mem _ h)
      | some u =>
          by_cases hc : (n.order.orderType = OrderType.limit ∨
              n.order.orderType = OrderType.triggerLimit) ∧
            (mcan n.order < minSize ∨ ucan n.order < minSize)
          · rw [dispatchUnfilledNodes_cons_skip minSize mcan ucan n rest s u
              hl hc]
            exact ih _ x h
          · rw [dispatchUnfilledNodes_cons_dispatch minSize mcan ucan n rest
              s u hl hc]
            exact ih _ x h

/-- C10 counterexample: the claim as stated fails when the same order
occurs twice among one pass's surviving candidates. The owner (user 7)
is absent from the empty user map when the first occurrence is
processed, so by the claim no fill attempt may be dispatched for this
candidate in this pass and its node must not be marked
filled-in-flight; yet the pass registers the user at the first
occurrence and then dispatches and marks the very same order at its
second occurrence. -/
theorem c10_duplicate_candidate_counterexample :
    (([] : List (Nat × Bool)).lookup scanHeadNode.userAccount = none) ∧
    scanHeadNode.order.orderId
      ∈ (dispatchUnfilledNodes 0 (fun _ => 0) (fun _ => 0)
          [scanHeadNode, scanHeadNode]
          { userMap := [], markedFilled := [], dispatched := [],
            fetchedUsers := [] }).dispatched ∧
    scanHeadNode.order.orderId
      ∈ (dispatchUnfilledNodes 0 (fun _ => 0) (fun _ => 0)
          [scanHeadNode, scanHeadNode]
          { userMap := [], markedFilled := [], dispatched := [],
            fetchedUsers := [] }).markedFilled := by
  exact ⟨by decide, by decide, by decide⟩

/-- C10 as amended: every occurrence of a surviving candidate whose owning
user is absent from the user map when that occurrence is processed is
handled by fetching and registering that user (added to the map as up
to date, recorded among the fetched users) and then skipped — that
occurrence dispatches nothing and marks nothing, and the loop continues
with the remaining candidates from the enlarged map; provided no later
candidate of the same pass carries the same order, the candidate's
order is neither dispatched nor marked `filled-in-flight` by this pass,
leaving it eligible for a later pass. -/
theorem c10_absent_user_skip (minSize : Int) (mcan ucan : Order → Int)
    (nodeToFill : Node) (rest : List Node) (s : DispatchState)
    (habsent : s.userMap.lookup nodeToFill.userAccount = none)
    (hrest : nodeToFill.order.orderId
      ∉ rest.map (fun n => n.order.orderId))
    (hdisp : nodeToFill.order.orderId ∉ s.dispatched)
    (hmark : nodeToFill.order.orderId ∉ s.markedFilled) :
    dispatchUnfilledNodes minSize mcan ucan (nodeToFill :: rest) s
      = dispatchUnfilledNodes minSize mcan ucan rest
          { s with
            userMap := setKey s.userMap nodeToFill.userAccount true
            fetchedUsers := nodeToFill.userAccount :: s.fetchedUsers } ∧
    (setKey s.userMap nodeToFill.userAccount true).lookup
        nodeToFill.userAccount = some true ∧
    nodeToFill.userAccount
      ∈ (dispatchUnfilledNodes minSize mcan ucan (nodeToFill :: rest)
          s).fetchedUsers ∧
    nodeToFill.order.orderId
      ∉ (dispatchUnfilledNodes minSize mcan ucan (nodeToFill :: rest)
          s).dispatched ∧
    nodeToFill.order.orderId
      ∉ (dispatchUnfilledNodes minSize mcan ucan (nodeToFill :: rest)
          s).markedFilled := by
  have hstep := dispatchUnfilledNodes_cons_absent minSize mcan ucan
    nodeToFill rest s habsent
  refine ⟨hstep, lookup_setKey_self s.userMap nodeToFill.userAccount true,
    ?_, ?_, ?_⟩
  · rw [hstep]
    exact dispatchUnfilledNodes_fetched_mono minSize mcan ucan rest _
      nodeToFill.userAccount (List.mem_cons_self _ _)
  · rw [hstep]
    intro h
    rcases dispatchUnfilledNodes_dispatched_mem minSize mcan ucan rest _
      _ h with h' | h'
    · exact hdisp h'
    · exact hrest h'
  · rw [hstep]
    intro h
    rcases dispatchUnfilledNodes_markedFilled_mem minSize mcan ucan rest _
      _ h with h' | h'
    · exact hmark h'
    · exact hrest h'

/-- C10 witness: a single candidate owned by user 7, unknown to the empty
user map, is registered and skipped: nothing is dispatched and nothing
is marked in flight. -/
theorem c10_absent_user_skip_witness :
    (([] : List (Nat × Bool)).lookup scanHeadNode.userAccount = none) ∧
    (scanHeadNode.order.orderId
      ∉ ([] : List Node).map (fun n => n.order.orderId)) ∧
    (scanHeadNode.order.orderId
      ∉ ({ userMap := [], markedFilled := [], dispatched := [],
            fetchedUsers := [] } : DispatchState).dispatched) ∧
    (scanHeadNode.order.orderId
      ∉ ({ userMap := [], markedFilled := [], dispatched := [],
            fetchedUsers := [] } : DispatchState).markedFilled) ∧
    (dispatchUnfilledNodes 0 (fun _ => 0) (fun _ => 0) [scanHeadNode]
        { userMap := [], markedFilled := [], dispatched := [],
          fetchedUsers := [] }
      = dispatchUnfilledNodes 0 (fun _ => 0) (fun _ => 0) []
          { userMap := setKey [] scanHeadNode.userAccount true,
            markedFilled := [], dispatched := [],
            fetchedUsers := [scanHeadNode.userAccount] } ∧
    (setKey [] scanHeadNode.userAccount true).lookup
        scanHeadNode.userAccount = some true ∧
    scanHeadNode.userAccount
      ∈ (dispatchUnfilledNodes 0 (fun _ => 0) (fun _ => 0) [scanHeadNode]
          { userMap := [], markedFilled := [], dispatched := [],
            fetchedUsers := [] }).fetchedUsers ∧
    scanHeadNode.order.orderId
      ∉ (dispatchUnfilledNodes 0 (fun _ => 0) (fun _ => 0) [scanHeadNode]
          { userMap := [], markedFilled := [], dispatched := [],
            fetchedUsers := [] }).dispatched ∧
    scanHeadNode.order.orderId
      ∉ (dispatchUnfilledNodes 0 (fun _ => 0) (fun _ => 0) [scanHeadNode]
          { userMap := [], markedFilled := [], dispatched := [],
            fetchedUsers := [] }).markedFilled) :=
  ⟨by decide, by decide, by decide, by decide,
    c10_absent_user_skip 0 (fun _ => 0) (fun _ => 0) scanHeadNode []
      { userMap := [], markedFilled := [], dispatched := [],
        fetchedUsers := [] } (by decide) (by decide) (by decide)
      (by decide)⟩

/-! ## C4: the event-drain loop (confirmed)

Ring arithmetic for the circular order-history log, then the
characterization of one drain. -/

theorem ringDist_zero_iff (len cursor head : Nat) (hc : cursor < len)
    (_hh : head < len) : ringDist len cursor head = 0 ↔ cursor = head := by
  unfold ringDist
  split <;> omega

theorem ringDist_lt (len cursor head : Nat) (hc : cursor < len)
    (hh : head < len) : ringDist len cursor head < len := by
  unfold ringDist
  split <;> omega

theorem ringDist_step (len cursor head : Nat) (hc : cursor < len)
    (hh : head < len) (hne : cursor ≠ head) :
    ringDist len ((cursor + 1) % len) head + 1
      = ringDist len cursor head := by
  have h2 : (cursor + 1) % len
      = if cursor + 1 < len then cursor + 1 else cursor + 1 - len :=
    two_mul_mod _ _ (by omega)
  unfold ringDist
  rw [h2]
  split_ifs <;> omega

theorem ringDist_add (len cursor head k : Nat) (hc : cursor < len)
    (hh : head < len) (hk : k ≤ ringDist len cursor head) :
    ringDist len ((cursor + k) % len) head
      = ringDist len cursor head - k := by
  have hd : ringDist len cursor head < len := ringDist_lt len cursor head hc hh
  have h2 : (cursor + k) % len
      = if cursor + k < len then cursor + k else cursor + k - len :=
    two_mul_mod _ _ (by omega)
  unfold ringDist at hk ⊢
  rw [h2]
  split_ifs at hk ⊢ <;> omega

theorem ringDist_end (len cursor head : Nat) (hc : cursor < len)
    (hh : head < len) :
    (cursor + ringDist len cursor head) % len = head := by
  have hd : ringDist len cursor head < len := ringDist_lt len cursor head hc hh
  have h2 : (cursor + ringDist len cursor head) % len
      = if cursor + ringDist len cursor head < len
        then cursor + ringDist len cursor head
        else cursor + ringDist len cursor head - len :=
    two_mul_mod _ _ (by omega)
  rw [h2]
  unfold ringDist at *
  split_ifs at * <;> omega

theorem ring_offsets_ne (len c a b : Nat) (hc : c < len) (hab : a < b)
    (hb : b < len) : (c + a) % len ≠ (c + b) % len := by
  have ha2 : (c + a) % len
      = if c + a < len then c + a else c + a - len :=
    two_mul_mod _ _ (by omega)
  have hb2 : (c + b) % len
      = if c + b < len then c + b else c + b - len :=
    two_mul_mod _ _ (by omega)
  rw [ha2, hb2]
  split_ifs <;> omega

theorem drainLoop_spec
    (applyRecord : OrderHistoryRecord → DLOB → Except Unit DLOB)
    (log : EventLog) (hlen : 0 < log.orderRecords.length)
    (hh : log.head < log.orderRecords.length) :
    ∀ (fuel cursor : Nat) (dlob : DLOB),
      cursor < log.orderRecords.length →
      ringDist log.orderRecords.length cursor log.head ≤ fuel →
      ∃ k ≤ ringDist log.orderRecords.length cursor log.head,
        (drainLoop applyRecord log fuel cursor dlob).1
            = (cursor + k) % log.orderRecords.length ∧
        replayRecords applyRecord log cursor k dlob
            = some (drainLoop applyRecord log fuel cursor dlob).2.1 ∧
        ((drainLoop applyRecord log fuel cursor dlob).2.2 = none →
          k = ringDist log.orderRecords.length cursor log.head) ∧
        ((drainLoop applyRecord log fuel cursor dlob).2.2 ≠ none →
          applyRecord
            (log.orderRecords.getD
              ((cursor + k) % log.orderRecords.length) default)
            (drainLoop applyRecord log fuel cursor dlob).2.1
          = Except.error ()) := by
  intro fuel
  induction fuel with
  | zero =>
      intro cursor dlob hc hfuel
      have h0 : ringDist log.orderRecords.length cursor log.head = 0 :=
        Nat.le_zero.mp hfuel
      refine ⟨0, by omega, ?_, rfl, fun _ => h0.symm,
        fun hne => absurd rfl hne⟩
      simp [drainLoop, Nat.mod_eq_of_lt hc]
  | succ fuel ih =>
      intro cursor dlob hc hfuel
      by_cases hch : cursor = log.head
      · have hd0 : ringDist log.orderRecords.length cursor log.head = 0 :=
          (ringDist_zero_iff _ _ _ hc hh).mpr hch
        have hres : drainLoop applyRecord log (fuel + 1) cursor dlob
            = (cursor, dlob, none) := by
          simp only [drainLoop, if_pos hch]
        refine ⟨0, by omega, ?_, ?_, fun _ => hd0.symm, ?_⟩
        · rw [hres]
          simp [Nat.mod_eq_of_lt hc]
        · rw [hres]
          rfl
        · rw [hres]
          exact fun hne => absurd rfl hne
      · cases happly : applyRecord (log.orderRecords.getD cursor default)
            dlob with
        | error e =>
            cases e
            have hres : drainLoop applyRecord log (fuel + 1) cursor dlob
                = (cursor, dlob, some ()) := by
              simp only [drainLoop, if_neg hch, happly]
            refine ⟨0, by omega, ?_, ?_, ?_, ?_⟩
            · rw [hres]
              simp [Nat.mod_eq_of_lt hc]
            · rw [hres]
              rfl
            · rw [hres]
              intro hnone
              exact absurd hnone (by simp)
            · rw [hres]
              intro _
              simpa [Nat.mod_eq_of_lt hc] using happly
        | ok dlob' =>
            have hres : drainLoop applyRecord log (fuel + 1) cursor dlob
                = drainLoop applyRecord log fuel
                    ((cursor + 1) % log.orderRecords.length) dlob' := by
              simp only [drainLoop, if_neg hch, happly]
            have hc1 : (cursor + 1) % log.orderRecords.length
                < log.orderRecords.length := Nat.mod_lt _ hlen
            have hstep := ringDist_step log.orderRecords.length cursor
              log.head hc hh hch
            obtain ⟨k1, hk1, hfst, hreplay, hnone, herr⟩ :=
              ih ((cursor + 1) % log.orderRecords.length) dlob' hc1
                (by omega)
            have hmod : ((cursor + 1) % log.orderRecords.length + k1)
                % log.orderRecords.length
                = (cursor + (k1 + 1)) % log.orderRecords.length := by
              rw [Nat.mod_add_mod]
              congr 1
              omega
            refine ⟨k1 + 1, by omega, ?_, ?_, ?_, ?_⟩
            · rw [hres, hfst, hmod]
            · rw [hres]
              simp only [replayRecords, happly]
              exact hreplay
            · rw [hres]
              intro hnone'
              have := hnone hnone'
              omega
            · rw [hres]
              intro hne
              rw [← hmod]
              exact herr hne

/-- C4: a drain run entered with the busy flag free always exits with the
busy flag cleared and without propagating an error; for some `k` not
exceeding the ring distance from the entry cursor to the log head, the
cursor ends exactly `k` steps further (mod the log length), the final
book is the successful application, in order and each exactly once, of
the `k` records the cursor advanced over; if the run completed, the
cursor rests at the old head, and otherwise it rests at the very record
whose application failed, so the next drain resumes there; and every
log position a subsequent drain toward the same head can process is
distinct from the positions whose records this run already applied. -/
theorem c4_event_drain
    (applyRecord : OrderHistoryRecord → DLOB → Except Unit DLOB)
    (log : EventLog) (fuel : Nat) (s : ProcessorState)
    (hlen : 0 < log.orderRecords.length)
    (hc : s.nextOrderHistoryIndex < log.orderRecords.length)
    (hh : log.head < log.orderRecords.length)
    (hfuel : ringDist log.orderRecords.length s.nextOrderHistoryIndex
      log.head ≤ fuel)
    (hm : s.updateOrderListMutex = 0) :
    (updateOrderList applyRecord log fuel s).updateOrderListMutex = 0 ∧
    ∃ k ≤ ringDist log.orderRecords.length s.nextOrderHistoryIndex
        log.head,
      (updateOrderList applyRecord log fuel s).nextOrderHistoryIndex
          = (s.nextOrderHistoryIndex + k) % log.orderRecords.length ∧
      replayRecords applyRecord log s.nextOrderHistoryIndex k s.dlob
          = some (updateOrderList applyRecord log fuel s).dlob ∧
      (k = ringDist log.orderRecords.length s.nextOrderHistoryIndex
          log.head →
        (s.nextOrderHistoryIndex + k) % log.orderRecords.length
          = log.head) ∧
      (k < ringDist log.orderRecords.length s.nextOrderHistoryIndex
          log.head →
        applyRecord
          (log.orderRecords.getD
            ((s.nextOrderHistoryIndex + k) % log.orderRecords.length)
            default)
          (updateOrderList applyRecord log fuel s).dlob
        = Except.error ()) ∧
      ∀ i < k,
        ∀ j < ringDist log.orderRecords.length
            ((s.nextOrderHistoryIndex + k) % log.orderRecords.length)
            log.head,
          (s.nextOrderHistoryIndex + i) % log.orderRecords.length
            ≠ ((s.nextOrderHistoryIndex + k) % log.orderRecords.length + j)
                % log.orderRecords.length := by
  have hmut : ¬ s.updateOrderListMutex = 1 := by omega
  have hu : updateOrderList applyRecord log fuel s
      = { updateOrderListMutex := 0
          nextOrderHistoryIndex :=
            (drainLoop applyRecord log fuel s.nextOrderHistoryIndex
              s.dlob).1
          dlob :=
            (drainLoop applyRecord log fuel s.nextOrderHistoryIndex
              s.dlob).2.1 } := by
    unfold updateOrderList
    rw [if_neg hmut]
  obtain ⟨k, hk, hfst, hreplay, hnone, herr⟩ :=
    drainLoop_spec applyRecord log hlen hh fuel s.nextOrderHistoryIndex
      s.dlob hc hfuel
  have hdlt : ringDist log.orderRecords.length s.nextOrderHistoryIndex
      log.head < log.orderRecords.length :=
    ringDist_lt _ _ _ hc hh
  refine ⟨by rw [hu], k, hk, ?_, ?_, ?_, ?_, ?_⟩
  · rw [hu]
    exact hfst
  · rw [hu]
    exact hreplay
  · intro hkd
    rw [hkd]
    exact ringDist_end _ _ _ hc hh
  · intro hlt
    have hne : (drainLoop applyRecord log fuel s.nextOrderHistoryIndex
        s.dlob).2.2 ≠ none := by
      intro h
      have := hnone h
      omega
    rw [hu]
    exact herr hne
  · intro i hi j hj
    have hd2 := ringDist_add log.orderRecords.length
      s.nextOrderHistoryIndex log.head k hc hh hk
    rw [hd2] at hj
    have hmod : ((s.nextOrderHistoryIndex + k) % log.orderRecords.length
        + j) % log.orderRecords.length
        = (s.nextOrderHistoryIndex + (k + j)) % log.orderRecords.length := by
      rw [Nat.mod_add_mod]
      congr 1
      omega
    rw [hmod]
    exact ring_offsets_ne log.orderRecords.length s.nextOrderHistoryIndex
      i (k + j) hc (by omega) (by omega)

/-- C4 witness: a drain of the two-record log from cursor 0 toward head 1
under the pure record application, entered with the mutex free. -/
theorem c4_event_drain_witness :
    (0 < wLog.orderRecords.length) ∧
    (wProcessorState.nextOrderHistoryIndex < wLog.orderRecords.length) ∧
    (wLog.head < wLog.orderRecords.length) ∧
    (ringDist wLog.orderRecords.length
      wProcessorState.nextOrderHistoryIndex wLog.head ≤ 2) ∧
    (wProcessorState.updateOrderListMutex = 0) ∧
    ((updateOrderList pureApplyRecord wLog 2
        wProcessorState).updateOrderListMutex = 0 ∧
    ∃ k ≤ ringDist wLog.orderRecords.length
        wProcessorState.nextOrderHistoryIndex wLog.head,
      (updateOrderList pureApplyRecord wLog 2
          wProcessorState).nextOrderHistoryIndex
          = (wProcessorState.nextOrderHistoryIndex + k)
              % wLog.orderRecords.length ∧
      replayRecords pureApplyRecord wLog
          wProcessorState.nextOrderHistoryIndex k wProcessorState.dlob
          = some (updateOrderList pureApplyRecord wLog 2
              wProcessorState).dlob ∧
      (k = ringDist wLog.orderRecords.length
          wProcessorState.nextOrderHistoryIndex wLog.head →
        (wProcessorState.nextOrderHistoryIndex + k)
            % wLog.orderRecords.length = wLog.head) ∧
      (k < ringDist wLog.orderRecords.length
          wProcessorState.nextOrderHistoryIndex wLog.head →
        pureApplyRecord
          (wLog.orderRecords.getD
            ((wProcessorState.nextOrderHistoryIndex + k)
              % wLog.orderRecords.length) default)
          (updateOrderList pureApplyRecord wLog 2 wProcessorState).dlob
        = Except.error ()) ∧
      ∀ i < k,
        ∀ j < ringDist wLog.orderRecords.length
            ((wProcessorState.nextOrderHistoryIndex + k)
              % wLog.orderRecords.length) wLog.head,
          (wProcessorState.nextOrderHistoryIndex + i)
              % wLog.orderRecords.length
            ≠ ((wProcessorState.nextOrderHistoryIndex + k)
                  % wLog.orderRecords.length + j)
                % wLog.orderRecords.length) :=
  ⟨by decide, by decide, by decide, by decide, by decide,
    c4_event_drain pureApplyRecord wLog 2 wProcessorState (by decide)
      (by decide) (by decide) (by decide) (by decide)⟩
